import Mathlib

/-
  Verification of the hybrid-KEM combiner in src/oqsprov/oqs_hyb_kem.c.

  The embedding models byte buffers as lists of naturals (one octet per
  entry).  Pointers that may be NULL become Option values; a C execution
  that dereferences NULL, reads out of bounds, or frees an indeterminate
  pointer (a goto that jumps over local initializers) is rendered as the
  distinguished outcome `crash`.  The opaque primitives (liboqs KEM,
  OpenSSL EVP key exchange) are fields of a `HybridEnv` record; theorems
  assume about them exactly what the spec's correctness contracts state.
-/

namespace OqsHybKem

/-- Byte strings: lists of naturals, one octet per entry. -/
abbrev Bytes := List Nat

/-- Modelled from the spec: DECODE_UINT32 lives in the absent header
oqsx.h; spec section 6 fixes the composite-key length fields as 4-byte
big-endian uint32.  A read past the end of the buffer is an out-of-bounds
access, rendered as `none`. -/
def readU32 (b : Bytes) (off : Nat) : Option Nat :=
  if off + 4 ≤ b.length then
    some ((((b.getD off 0) * 256 + b.getD (off + 1) 0) * 256 + b.getD (off + 2) 0) * 256
            + b.getD (off + 3) 0)
  else none

/-- Big-endian 4-byte encoding of a length field. -/
def u32be (n : Nat) : Bytes :=
  [n / 16777216 % 256, n / 65536 % 256, n / 256 % 256, n % 256]

/-- Composite key layout kemLen:u32 || kemBytes || kexLen:u32 || kexBytes. -/
def mkComposite (k1 k2 : Bytes) : Bytes :=
  u32be k1.length ++ k1 ++ u32be k2.length ++ k2

/-- oqsx_get_pubkey_ptr: reads the two 4-byte length fields and returns the
two component views (kem part at offset 4, kex part at offset 8+kemlen).
The C code trusts the caller for bounds; an undersized buffer means the
later reads through the views go out of bounds, so the model requires the
full declared payload to be present and yields `none` (= out-of-bounds
access) otherwise. -/
def oqsx_get_pubkey_ptr (pubkey : Bytes) : Option (Bytes × Bytes) :=
  match readU32 pubkey 0 with
  | none => none
  | some kemlen =>
    match readU32 pubkey (4 + kemlen) with
    | none => none
    | some kexlen =>
      if 8 + kemlen + kexlen ≤ pubkey.length then
        some ((pubkey.drop 4).take kemlen, (pubkey.drop (8 + kemlen)).take kexlen)
      else none

/-- oqsx_get_privkey_ptr: identical layout walk over the private half. -/
def oqsx_get_privkey_ptr (privkey : Bytes) : Option (Bytes × Bytes) :=
  match readU32 privkey 0 with
  | none => none
  | some kemlen =>
    match readU32 privkey (4 + kemlen) with
    | none => none
    | some kexlen =>
      if 8 + kemlen + kexlen ≤ privkey.length then
        some ((privkey.drop 4).take kemlen, (privkey.drop (8 + kemlen)).take kexlen)
      else none

/-- oqsx_get_ct_ptr: the C signature takes the three lengths as uint16_t,
so every argument is reduced modulo 2^16 at the call boundary; the check
compares ctlen with ct1len + ct2len (promoted to int, no further wrap)
and also rejects a null ct.  On success the two results are views at
offset 0 and offset ct1len of the same buffer (no copying). -/
def oqsx_get_ct_ptr (ct : Option Bytes) (ctlen ct1len ct2len : Nat) :
    Option (Bytes × Bytes) :=
  let ctlen16 := ctlen % 65536
  let ct1len16 := ct1len % 65536
  let ct2len16 := ct2len % 65536
  if ctlen16 ≠ ct1len16 + ct2len16 then none
  else
    match ct with
    | none => none
    | some mem => some (mem, mem.drop ct1len16)

/-- Overwrite the region of `buf` starting at `off` with `data`
(pointer-arithmetic write through a view). -/
def writeBytes (buf : Bytes) (off : Nat) (data : Bytes) : Bytes :=
  buf.take off ++ data ++ buf.drop (off + data.length)

/-- An ephemeral key-exchange keypair as produced by EVP_PKEY_keygen:
the private half plus its encoded public key. -/
structure KexKeypair where
  priv : Bytes
  pub : Bytes
deriving Repr, DecidableEq

/-- The opaque primitives and the algorithm descriptor (OQS_HYB_KEM:
hybkem->kem lengths and hybkem->kex_info).  kem_encaps takes the KEM
public key; its randomness is internal, so one `HybridEnv` value denotes
one resolved execution.  kex_check_pub models whether
EVP_PKEY_set1_encoded_public_key accepts an encoding; kex_load_priv
models EVP_PKEY_new_raw_private_key / d2i_AutoPrivateKey depending on
raw_key_support. -/
structure HybridEnv where
  kem_length_ciphertext : Nat
  kem_length_shared_secret : Nat
  kex_length_secret : Nat
  kex_length_public_key : Nat
  raw_key_support : Bool
  kem_encaps : Bytes → Option (Bytes × Bytes)
  kem_decaps : Bytes → Bytes → Option Bytes
  kex_keygen : Option KexKeypair
  kex_check_pub : Bytes → Bool
  kex_derive : Bytes → Bytes → Option Bytes
  kex_load_priv : Bool → Bytes → Option Bytes

/-- OQSX_KEY as used by this file: the composite public and private key
buffers (either pointer may be NULL). -/
structure OQSXKey where
  pubkey : Option Bytes
  privkey : Option Bytes
deriving Repr, DecidableEq

/-- Outcome of a provider entry point: either a defined return with the
visible out-state, or undefined behaviour (NULL dereference, read or
write out of bounds, or cleanup of an indeterminate pointer). -/
inductive Outcome (α : Type) where
  | crash
  | ok (ret : Int) (out : α)
deriving Repr, DecidableEq

/-- Visible out-state of oqs_hyb_kem_encaps: the two caller buffers after
the call and the two written length out-parameters. -/
structure EncapsOut where
  ct : Option Bytes
  secret : Option Bytes
  ctlen : Nat
  secretlen : Nat
deriving Repr, DecidableEq

/-- Visible out-state of oqs_hyb_kem_decaps. -/
structure DecapsOut where
  secret : Option Bytes
  secretlen : Nat
deriving Repr, DecidableEq

/-- oqs_hyb_kem_encaps.  Follows the C control flow line by line:
no null check on the bound key (dereferenced immediately); both length
out-parameters are written before the size-query early return; the
result of oqsx_get_ct_ptr is discarded, so on a (truncated-length)
mismatch the two ciphertext views stay NULL and OQS_KEM_encaps then
writes through a null pointer; the classical derivation runs before the
KEM encapsulation; the re-encoded ephemeral public key must have
exactly the decoded kex public length or the call fails with -1 leaving
the kex slice of the ciphertext unwritten. -/
def oqs_hyb_kem_encaps (env : HybridEnv) (kemKey : Option OQSXKey)
    (ct0 secret0 : Option Bytes) : Outcome EncapsOut :=
  match kemKey with
  | none => .crash
  | some key =>
  match key.pubkey with
  | none => .crash
  | some pub =>
  match oqsx_get_pubkey_ptr pub with
  | none => .crash
  | some (pubkey_kem, pubkey_kex) =>
  let pubkey_kexlen := pubkey_kex.length
  let kexDeriveLen := env.kex_length_secret
  let ctlen := env.kem_length_ciphertext + pubkey_kexlen
  let secretlen := env.kem_length_shared_secret + kexDeriveLen
  match ct0, secret0 with
  | some ctb, some sb =>
    if env.kex_check_pub pubkey_kex = false then
      .ok (-1) ⟨some ctb, some sb, ctlen, secretlen⟩
    else
      match env.kex_keygen with
      | none => .ok (-1) ⟨some ctb, some sb, ctlen, secretlen⟩
      | some eph =>
        let views := oqsx_get_ct_ptr (some ctb) ctlen env.kem_length_ciphertext pubkey_kexlen
        match env.kex_derive eph.priv pubkey_kex with
        | none => .ok (-1) ⟨some ctb, some sb, ctlen, secretlen⟩
        | some ssKex =>
          let sb1 := writeBytes sb env.kem_length_shared_secret ssKex
          match views with
          | none => .crash
          | some _ =>
            match env.kem_encaps pubkey_kem with
            | none => .ok (-1) ⟨some ctb, some sb1, ctlen, secretlen⟩
            | some (ctKem, ssKem) =>
              let ctb1 := writeBytes ctb 0 ctKem
              let sb2 := writeBytes sb1 0 ssKem
              if eph.pub.length = 0 ∨ eph.pub.length ≠ pubkey_kexlen then
                .ok (-1) ⟨some ctb1, some sb2, ctlen, secretlen⟩
              else
                .ok 1 ⟨some (writeBytes ctb1 (env.kem_length_ciphertext % 65536) eph.pub),
                       some sb2, ctlen, secretlen⟩
  | _, _ => .ok 1 ⟨ct0, secret0, ctlen, secretlen⟩

/-- oqs_hyb_kem_decaps.  The local EVP_PKEY_CTX is declared without an
initializer and the EVP_PKEY locals' initializers sit after the first
goto, so every error exit before EVP_PKEY_CTX_new frees indeterminate
pointers: those paths are `crash`.  The split result is again discarded;
a mismatched (truncated) length leaves the views NULL and the peer-key
reconstruction then reads from NULL.  A failed classical derivation
returns -1; a failed KEM decapsulation returns 0 (OQS_SUCCESS = 0
compared for equality); both are failures to the caller. -/
def oqs_hyb_kem_decaps (env : HybridEnv) (kemKey : Option OQSXKey)
    (secret0 : Option Bytes) (ct : Option Bytes) (ctlen : Nat) : Outcome DecapsOut :=
  match kemKey with
  | none => .crash
  | some key =>
  match key.privkey with
  | none => .crash
  | some priv =>
  match oqsx_get_privkey_ptr priv with
  | none => .crash
  | some (privkey_kem, privkey_kex) =>
  let pubkey_kexlen := env.kex_length_public_key
  let kexDeriveLen := env.kex_length_secret
  let secretlen := env.kem_length_shared_secret + kexDeriveLen
  match secret0 with
  | none => .ok 1 ⟨none, secretlen⟩
  | some sb =>
    match env.kex_load_priv env.raw_key_support privkey_kex with
    | none => .crash
    | some kexPriv =>
      match oqsx_get_ct_ptr ct ctlen env.kem_length_ciphertext pubkey_kexlen with
      | none => .crash
      | some (ct1, ct2) =>
        if env.kex_check_pub (ct2.take pubkey_kexlen) = false then .crash
        else
          match env.kex_derive kexPriv (ct2.take pubkey_kexlen) with
          | none => .ok (-1) ⟨some sb, secretlen⟩
          | some ssKex =>
            let sb1 := writeBytes sb env.kem_length_shared_secret ssKex
            match env.kem_decaps (ct1.take env.kem_length_ciphertext) privkey_kem with
            | none => .ok 0 ⟨some sb1, secretlen⟩
            | some ssKem => .ok 1 ⟨some (writeBytes sb1 0 ssKem), secretlen⟩

/-- Reference-count events on key handles, for the init model.
spec-modelled: oqsx_key_up_ref (+1) and oqsx_key_free (-1, no-op on
NULL) live outside src; their counting semantics follow the spec. -/
inductive KeyEvent where
  | retain (k : Nat)
  | release (k : Nat)
deriving Repr, DecidableEq

/-- oqsx_key_free on the previously held reference: no event if the
context held none (free of NULL is a no-op). -/
def releaseEvents : Option Nat → List KeyEvent
  | none => []
  | some o => [KeyEvent.release o]

/-- oqs_hyb_kem_decapsencaps_init: keys are identified by handle ids;
`upRefOk` says whether oqsx_key_up_ref succeeds on a handle.  The C code
up-refs the NEW key inside the guard condition and only then frees the
old one; a null new key or a failed up-ref returns 0 with the binding
untouched.  Result: (return value, new binding, ref-count event trace in
order of occurrence). -/
def oqs_hyb_kem_decapsencaps_init (oldKey : Option Nat) (vkem : Option Nat)
    (upRefOk : Nat → Bool) : Int × Option Nat × List KeyEvent :=
  match vkem with
  | none => (0, oldKey, [])
  | some k =>
    if upRefOk k then (1, some k, KeyEvent.retain k :: releaseEvents oldKey)
    else (0, oldKey, [])

/-- Net reference-count change of handle `k` over an event trace. -/
def refDelta (evs : List KeyEvent) (k : Nat) : Int :=
  evs.foldl
    (fun acc e =>
      match e with
      | KeyEvent.retain j => if j = k then acc + 1 else acc
      | KeyEvent.release j => if j = k then acc - 1 else acc) 0

/-- A small concrete environment used to instantiate hypotheses of the
general theorems: a toy KEM whose shared secret is recoverable from the
private key, and a toy commutative key exchange (derive sums both
parties' bytes, so derive(a, B) = derive(b, A) when pub = priv-mirror
pairs are chosen accordingly). -/
def toyEnv : HybridEnv where
  kem_length_ciphertext := 2
  kem_length_shared_secret := 2
  kex_length_secret := 2
  kex_length_public_key := 2
  raw_key_support := true
  kem_encaps := fun pub => some ([7, 7], [pub.headD 0, 1])
  kem_decaps := fun _ priv => some [priv.headD 0, 1]
  kex_keygen := some ⟨[3], [5, 5]⟩
  kex_check_pub := fun _ => true
  kex_derive := fun p q => some [(p.sum + q.sum) % 256, 0]
  kex_load_priv := fun _ b => some b

/-- A matching composite keypair for `toyEnv`: KEM halves [9,9]/[9,9],
kex public [4,4] with kex private [1] (so the two derive calls agree:
3 + 8 = 1 + 10). -/
def toyKey : OQSXKey :=
  ⟨some (mkComposite [9, 9] [4, 4]), some (mkComposite [9, 9] [1])⟩

/-- A key whose composite public key declares a kex length (3) different
from toyEnv's descriptor value kex_length_public_key = 2. -/
def toyKeyOdd : OQSXKey :=
  ⟨some (mkComposite [9, 9] [4, 4, 4]), some (mkComposite [9, 9] [1])⟩

/-- toyEnv with an ephemeral keypair whose encoded public key is 3 bytes,
mismatching the 2-byte kex length decoded from toyKey's public key. -/
def toyEnvBadLen : HybridEnv :=
  { toyEnv with kex_keygen := some ⟨[3], [5, 5, 5]⟩ }

theorem getD_shift (xs t : Bytes) (k d : Nat) :
    (xs ++ t).getD (xs.length + k) d = t.getD k d := by
  rw [List.getD_append_right xs t d (xs.length + k) (Nat.le_add_right _ _),
    Nat.add_sub_cancel_left]

theorem readU32_u32be (n : Nat) (t : Bytes) (h : n < 4294967296) :
    readU32 (u32be n ++ t) 0 = some n := by
  unfold readU32 u32be
  simp only [List.cons_append, List.nil_append, List.length_cons, Nat.zero_add,
    List.getD_cons_zero, List.getD_cons_succ]
  rw [if_pos (by omega)]
  congr 1
  omega

theorem readU32_shift (xs t : Bytes) (off : Nat) :
    readU32 (xs ++ t) (xs.length + off) = readU32 t off := by
  unfold readU32
  rw [List.length_append]
  have h1 : xs.length + off + 1 = xs.length + (off + 1) := by omega
  have h2 : xs.length + off + 2 = xs.length + (off + 2) := by omega
  have h3 : xs.length + off + 3 = xs.length + (off + 3) := by omega
  rw [h1, h2, h3, getD_shift, getD_shift, getD_shift, getD_shift]
  have h4 : xs.length + off + 4 = xs.length + (off + 4) := by omega
  rw [h4]
  by_cases hc : off + 4 ≤ t.length
  · rw [if_pos (by omega), if_pos hc]
  · rw [if_neg (by omega), if_neg hc]

theorem length_u32be (n : Nat) : (u32be n).length = 4 := by
  simp [u32be]

theorem oqsx_decode_mkComposite (k1 k2 : Bytes)
    (h1 : k1.length < 4294967296) (h2 : k2.length < 4294967296) :
    oqsx_get_pubkey_ptr (mkComposite k1 k2) = some (k1, k2) := by
  have hassoc : mkComposite k1 k2 =
      (u32be k1.length ++ k1) ++ (u32be k2.length ++ k2) := by
    simp [mkComposite, List.append_assoc]
  have hlen1 : (u32be k1.length ++ k1).length = 4 + k1.length := by
    simp [length_u32be]
  have e1 : readU32 (mkComposite k1 k2) 0 = some k1.length := by
    rw [mkComposite, List.append_assoc, List.append_assoc]
    exact readU32_u32be _ _ h1
  have e2 : readU32 (mkComposite k1 k2) (4 + k1.length) = some k2.length := by
    rw [hassoc, show 4 + k1.length = (u32be k1.length ++ k1).length + 0 by omega,
      readU32_shift]
    exact readU32_u32be _ _ h2
  have hdrop4 : (mkComposite k1 k2).drop 4 = k1 ++ (u32be k2.length ++ k2) := by
    rw [mkComposite, List.append_assoc, List.append_assoc,
      show 4 = (u32be k1.length).length from (length_u32be _).symm, List.drop_left]
  have hdrop8 : (mkComposite k1 k2).drop (8 + k1.length) = k2 := by
    rw [mkComposite, show u32be k1.length ++ k1 ++ u32be k2.length ++ k2 =
      (u32be k1.length ++ k1 ++ u32be k2.length) ++ k2 by simp [List.append_assoc]]
    exact List.drop_left' (by simp [length_u32be]; omega)
  have hlenall : (mkComposite k1 k2).length = 8 + k1.length + k2.length := by
    simp [mkComposite, length_u32be]; omega
  unfold oqsx_get_pubkey_ptr
  rw [e1]
  dsimp only
  rw [e2]
  dsimp only
  rw [if_pos (by omega), hdrop4, hdrop8]
  rw [List.take_left' rfl, List.take_of_length_le (Nat.le_refl _)]

theorem oqsx_decode_priv_mkComposite (k1 k2 : Bytes)
    (h1 : k1.length < 4294967296) (h2 : k2.length < 4294967296) :
    oqsx_get_privkey_ptr (mkComposite k1 k2) = some (k1, k2) := by
  have : oqsx_get_privkey_ptr (mkComposite k1 k2) =
      oqsx_get_pubkey_ptr (mkComposite k1 k2) := by
    unfold oqsx_get_privkey_ptr oqsx_get_pubkey_ptr
    rfl
  rw [this]
  exact oqsx_decode_mkComposite k1 k2 h1 h2

theorem writeBytes_cover_left (buf x y : Bytes) (a b : Nat)
    (hbuf : buf.length = a + b) (hx : x.length = a) (hy : y.length = b) :
    writeBytes (writeBytes buf 0 x) a y = x ++ y := by
  have h0 : writeBytes buf 0 x = x ++ buf.drop a := by
    simp [writeBytes, hx]
  rw [h0]
  unfold writeBytes
  rw [List.take_left' hx,
    List.drop_eq_nil_of_le (by simp [List.length_append, List.length_drop]; omega),
    List.append_nil]

theorem writeBytes_cover_right (buf x y : Bytes) (a b : Nat)
    (hbuf : buf.length = a + b) (hx : x.length = a) (hy : y.length = b) :
    writeBytes (writeBytes buf a y) 0 x = x ++ y := by
  have h0 : writeBytes buf a y = buf.take a ++ y := by
    unfold writeBytes
    rw [hy, List.drop_eq_nil_of_le (by omega), List.append_nil]
  rw [h0]
  unfold writeBytes
  rw [List.take_zero, List.nil_append, Nat.zero_add, hx,
    List.drop_left' (by simp [List.length_take]; omega)]

theorem drop_writeBytes_zero (buf x : Bytes) (a : Nat) (hx : x.length = a) :
    (writeBytes buf 0 x).drop a = buf.drop a := by
  unfold writeBytes
  rw [List.take_zero, List.nil_append, Nat.zero_add, hx, List.drop_left' hx]

theorem encaps_ok
    (env : HybridEnv) (key : OQSXKey) (pb km kx : Bytes)
    (eph : KexKeypair) (ctK ssK ssX ctb sb : Bytes)
    (hpb : key.pubkey = some pb)
    (hdec : oqsx_get_pubkey_ptr pb = some (km, kx))
    (hchk : env.kex_check_pub kx = true)
    (hkg : env.kex_keygen = some eph)
    (hder : env.kex_derive eph.priv kx = some ssX)
    (henc : env.kem_encaps km = some (ctK, ssK))
    (hctK : ctK.length = env.kem_length_ciphertext)
    (hssK : ssK.length = env.kem_length_shared_secret)
    (hssX : ssX.length = env.kex_length_secret)
    (hep : eph.pub.length = kx.length)
    (hep0 : 0 < eph.pub.length)
    (hsum : env.kem_length_ciphertext + kx.length < 65536)
    (hctb : ctb.length = env.kem_length_ciphertext + kx.length)
    (hsb : sb.length = env.kem_length_shared_secret + env.kex_length_secret) :
    oqs_hyb_kem_encaps env (some key) (some ctb) (some sb) =
      .ok 1 ⟨some (ctK ++ eph.pub), some (ssK ++ ssX),
             env.kem_length_ciphertext + kx.length,
             env.kem_length_shared_secret + env.kex_length_secret⟩ := by
  have hm1 : env.kem_length_ciphertext % 65536 = env.kem_length_ciphertext :=
    Nat.mod_eq_of_lt (by omega)
  have hm2 : kx.length % 65536 = kx.length := Nat.mod_eq_of_lt (by omega)
  have hm3 : (env.kem_length_ciphertext + kx.length) % 65536 =
      env.kem_length_ciphertext + kx.length := Nat.mod_eq_of_lt (by omega)
  simp only [oqs_hyb_kem_encaps, hpb, hdec, hchk, hkg, hder, henc,
    oqsx_get_ct_ptr, hm1, hm2, hm3, Bool.true_eq_false, if_false, ne_eq,
    Nat.add_right_cancel_iff, not_true_eq_false, not_false_eq_true]
  rw [if_neg (by omega)]
  rw [writeBytes_cover_left ctb ctK eph.pub env.kem_length_ciphertext kx.length hctb hctK hep,
    writeBytes_cover_right sb ssK ssX env.kem_length_shared_secret env.kex_length_secret hsb
      hssK hssX]

theorem decaps_ok
    (env : HybridEnv) (key : OQSXKey) (pv pkm pkx kp c1 c2 ssK2 ssX2 sb : Bytes)
    (hpv : key.privkey = some pv)
    (hdec : oqsx_get_privkey_ptr pv = some (pkm, pkx))
    (hload : env.kex_load_priv env.raw_key_support pkx = some kp)
    (hc1 : c1.length = env.kem_length_ciphertext)
    (hc2 : c2.length = env.kex_length_public_key)
    (hsum : env.kem_length_ciphertext + env.kex_length_public_key < 65536)
    (hchk : env.kex_check_pub c2 = true)
    (hder : env.kex_derive kp c2 = some ssX2)
    (hkd : env.kem_decaps c1 pkm = some ssK2)
    (hssX : ssX2.length = env.kex_length_secret)
    (hssK : ssK2.length = env.kem_length_shared_secret)
    (hsb : sb.length = env.kem_length_shared_secret + env.kex_length_secret) :
    oqs_hyb_kem_decaps env (some key) (some sb) (some (c1 ++ c2))
        (env.kem_length_ciphertext + env.kex_length_public_key) =
      .ok 1 ⟨some (ssK2 ++ ssX2), env.kem_length_shared_secret + env.kex_length_secret⟩ := by
  have hm1 : env.kem_length_ciphertext % 65536 = env.kem_length_ciphertext :=
    Nat.mod_eq_of_lt (by omega)
  have hm2 : env.kex_length_public_key % 65536 = env.kex_length_public_key :=
    Nat.mod_eq_of_lt (by omega)
  have hm3 : (env.kem_length_ciphertext + env.kex_length_public_key) % 65536 =
      env.kem_length_ciphertext + env.kex_length_public_key := Nat.mod_eq_of_lt (by omega)
  have hdrop : (c1 ++ c2).drop env.kem_length_ciphertext = c2 := List.drop_left' hc1
  have htake2 : c2.take env.kex_length_public_key = c2 :=
    List.take_of_length_le (le_of_eq hc2)
  have htake1 : (c1 ++ c2).take env.kem_length_ciphertext = c1 := List.take_left' hc1
  simp only [oqs_hyb_kem_decaps, hpv, hdec, hload, oqsx_get_ct_ptr, hm1, hm2, hm3,
    ne_eq, not_true_eq_false, if_false, hdrop, htake2, htake1, hchk, hder, hkd,
    Bool.true_eq_false]
  rw [writeBytes_cover_right sb ssK2 ssX2 env.kem_length_shared_secret env.kex_length_secret
    hsb hssK hssX]

/-- C1: for every valid hybrid keypair and bound context, decapsulating the
ciphertext produced by encapsulation with the matching private key yields
exactly the shared secret produced by that same encapsulation (the full
ssKem || ssKex buffer), assuming the opaque KEM and key-exchange
primitives satisfy their correctness contracts (stated as hypotheses). -/
theorem c1_roundtrip
    (env : HybridEnv) (key : OQSXKey) (kemPub kemPriv kexPub kexPriv : Bytes)
    (eph : KexKeypair) (ctK ssK ssX kp ctb sb sb2 : Bytes)
    (hpb : key.pubkey = some (mkComposite kemPub kexPub))
    (hpv : key.privkey = some (mkComposite kemPriv kexPriv))
    (hl1 : kemPub.length < 4294967296) (hl2 : kexPub.length < 4294967296)
    (hl3 : kemPriv.length < 4294967296) (hl4 : kexPriv.length < 4294967296)
    (hkxlen : kexPub.length = env.kex_length_public_key)
    (henc : env.kem_encaps kemPub = some (ctK, ssK))
    (hkd : env.kem_decaps ctK kemPriv = some ssK)
    (hctK : ctK.length = env.kem_length_ciphertext)
    (hssK : ssK.length = env.kem_length_shared_secret)
    (hkg : env.kex_keygen = some eph)
    (hep : eph.pub.length = kexPub.length)
    (hep0 : 0 < eph.pub.length)
    (hchk : env.kex_check_pub kexPub = true)
    (hchk2 : env.kex_check_pub eph.pub = true)
    (hder : env.kex_derive eph.priv kexPub = some ssX)
    (hload : env.kex_load_priv env.raw_key_support kexPriv = some kp)
    (hagree : env.kex_derive kp eph.pub = some ssX)
    (hssX : ssX.length = env.kex_length_secret)
    (hsum : env.kem_length_ciphertext + kexPub.length < 65536)
    (hctb : ctb.length = env.kem_length_ciphertext + kexPub.length)
    (hsb : sb.length = env.kem_length_shared_secret + env.kex_length_secret)
    (hsb2 : sb2.length = env.kem_length_shared_secret + env.kex_length_secret) :
    oqs_hyb_kem_encaps env (some key) (some ctb) (some sb) =
      .ok 1 ⟨some (ctK ++ eph.pub), some (ssK ++ ssX),
             env.kem_length_ciphertext + kexPub.length,
             env.kem_length_shared_secret + env.kex_length_secret⟩ ∧
    oqs_hyb_kem_decaps env (some key) (some sb2) (some (ctK ++ eph.pub))
        (env.kem_length_ciphertext + kexPub.length) =
      .ok 1 ⟨some (ssK ++ ssX),
             env.kem_length_shared_secret + env.kex_length_secret⟩ := by
  constructor
  · exact encaps_ok env key _ kemPub kexPub eph ctK ssK ssX ctb sb hpb
      (oqsx_decode_mkComposite _ _ hl1 hl2) hchk hkg hder henc hctK hssK hssX
      hep hep0 hsum hctb hsb
  · rw [hkxlen]
    exact decaps_ok env key _ kemPriv kexPriv kp ctK eph.pub ssK ssX sb2 hpv
      (oqsx_decode_priv_mkComposite _ _ hl3 hl4) hload hctK (by rw [hep, hkxlen])
      (by rw [← hkxlen]; exact hsum) hchk2 hagree hkd hssX hssK hsb2

theorem c1_roundtrip_witness :
    oqs_hyb_kem_encaps toyEnv (some toyKey) (some [0, 0, 0, 0]) (some [0, 0, 0, 0]) =
      .ok 1 ⟨some [7, 7, 5, 5], some [9, 1, 11, 0], 4, 4⟩ ∧
    oqs_hyb_kem_decaps toyEnv (some toyKey) (some [0, 0, 0, 0]) (some [7, 7, 5, 5]) 4 =
      .ok 1 ⟨some [9, 1, 11, 0], 4⟩ :=
  c1_roundtrip toyEnv toyKey [9, 9] [9, 9] [4, 4] [1] ⟨[3], [5, 5]⟩
    [7, 7] [9, 1] [11, 0] [1] [0, 0, 0, 0] [0, 0, 0, 0] [0, 0, 0, 0]
    rfl rfl (by decide) (by decide) (by decide) (by decide) rfl rfl rfl rfl rfl
    rfl rfl (by decide) rfl rfl (by decide) rfl (by decide) rfl (by decide) rfl
    rfl rfl

/-- C2: the claim says a decapsulation with ctLen different from
kemCtLen + kexPubLen fails with EncodingMismatch writing nothing; the
code discards the result of oqsx_get_ct_ptr, so on a real mismatch the
ciphertext views stay NULL and the peer-key reconstruction dereferences
NULL (crash), while a mismatch that aliases modulo 2^16 (the helper's
uint16 parameters) passes the check entirely and the call succeeds. -/
theorem c2_length_mismatch_eval :
    oqs_hyb_kem_decaps toyEnv (some toyKey) (some [0, 0, 0, 0]) (some [7, 7, 5, 5]) 5 =
      .crash ∧
    oqs_hyb_kem_decaps toyEnv (some toyKey) (some [0, 0, 0, 0]) (some [7, 7, 5, 5]) 65540 =
      .ok 1 ⟨some [9, 1, 11, 0], 4⟩ ∧
    (5 : Nat) ≠ toyEnv.kem_length_ciphertext + toyEnv.kex_length_public_key ∧
    (65540 : Nat) ≠ toyEnv.kem_length_ciphertext + toyEnv.kex_length_public_key := by
  decide

/-- C5: the claim says both compute operations fail with InvalidKeyState
on an unbound context; in the code only decapsulation checks the bound
key (and even its error exit frees pointers whose initializers the goto
skipped), while encapsulation dereferences the null key immediately:
both entry points hit undefined behaviour instead of a clean failure. -/
theorem c5_unbound_key_eval :
    (∀ (env : HybridEnv) (ct0 s0 : Option Bytes),
        oqs_hyb_kem_encaps env none ct0 s0 = .crash) ∧
    (∀ (env : HybridEnv) (s0 ct : Option Bytes) (ctlen : Nat),
        oqs_hyb_kem_decaps env none s0 ct ctlen = .crash) :=
  ⟨fun _ _ _ => rfl, fun _ _ _ _ => rfl⟩

/-- C6 counterexample: binding a new key does not release the old
reference first; the event trace of a successful re-init is
retain-new followed by release-old, not the claimed release-then-retain. -/
theorem c6_order_counterexample :
    (oqs_hyb_kem_decapsencaps_init (some 1) (some 2) (fun _ => true)).2.2 ≠
      [KeyEvent.release 1, KeyEvent.retain 2] := by
  decide

/-- C6 amended: init first retains the new handle and then releases the
previously bound reference (net effect: old count -1, new count +1 when
the handles differ); it fails, leaving the existing binding unchanged,
when the new handle is null or its retain fails. -/
theorem c6_init_retain_then_release
    (oldK newK : Nat) (upRefOk : Nat → Bool) :
    (upRefOk newK = true →
      oqs_hyb_kem_decapsencaps_init (some oldK) (some newK) upRefOk =
        (1, some newK, [KeyEvent.retain newK, KeyEvent.release oldK])) ∧
    (upRefOk newK = false →
      oqs_hyb_kem_decapsencaps_init (some oldK) (some newK) upRefOk =
        (0, some oldK, [])) ∧
    (∀ old0 : Option Nat,
      oqs_hyb_kem_decapsencaps_init old0 none upRefOk = (0, old0, [])) ∧
    (oldK ≠ newK →
      refDelta [KeyEvent.retain newK, KeyEvent.release oldK] oldK = -1 ∧
      refDelta [KeyEvent.retain newK, KeyEvent.release oldK] newK = 1) := by
  refine ⟨fun h => ?_, fun h => ?_, fun old0 => ?_, fun h => ?_⟩
  · simp [oqs_hyb_kem_decapsencaps_init, releaseEvents, h]
  · simp [oqs_hyb_kem_decapsencaps_init, releaseEvents, h]
  · rfl
  · constructor
    · simp [refDelta, h, Ne.symm h]
    · simp [refDelta, h, Ne.symm h]

theorem c6_init_witness :
    oqs_hyb_kem_decapsencaps_init (some 1) (some 2) (fun _ => true) =
      (1, some 2, [KeyEvent.retain 2, KeyEvent.release 1]) ∧
    refDelta [KeyEvent.retain 2, KeyEvent.release 1] 1 = -1 ∧
    refDelta [KeyEvent.retain 2, KeyEvent.release 1] 2 = 1 :=
  ⟨(c6_init_retain_then_release 1 2 (fun _ => true)).1 rfl,
   (c6_init_retain_then_release 1 2 (fun _ => true)).2.2.2 (by decide)⟩

/-- C7 counterexample: the size-query ciphertext length is not
independent of the bound key's content: a key whose composite public key
declares a 3-byte kex component reports 2 + 3 = 5, not
kemCtLen + kexPubLen = 2 + 2 = 4 from the descriptor. -/
theorem c7_sizequery_counterexample :
    oqs_hyb_kem_encaps toyEnv (some toyKeyOdd) none none =
      .ok 1 ⟨none, none, 5, 4⟩ ∧
    toyEnv.kem_length_ciphertext + toyEnv.kex_length_public_key ≠ 5 := by
  decide

/-- C7 amended: with either output buffer null, encapsulation performs
no cryptographic work (the result is unchanged under any environment
agreeing on the three length fields), mutates no buffer, returns
success, and reports secret length kemSecretLen + kexSecretLen and
ciphertext length kemCtLen plus the kex length decoded from the bound
composite public key (equal to kexPubLen exactly when the bound key is
well-formed for the negotiated algorithm). -/
theorem c7_sizequery_amended
    (env : HybridEnv) (key : OQSXKey) (pb km kx : Bytes) (ct0 s0 : Option Bytes)
    (hpb : key.pubkey = some pb)
    (hdec : oqsx_get_pubkey_ptr pb = some (km, kx))
    (hnull : ct0 = none ∨ s0 = none) :
    oqs_hyb_kem_encaps env (some key) ct0 s0 =
      .ok 1 ⟨ct0, s0, env.kem_length_ciphertext + kx.length,
             env.kem_length_shared_secret + env.kex_length_secret⟩ ∧
    (∀ env2 : HybridEnv,
      env2.kem_length_ciphertext = env.kem_length_ciphertext →
      env2.kem_length_shared_secret = env.kem_length_shared_secret →
      env2.kex_length_secret = env.kex_length_secret →
      oqs_hyb_kem_encaps env2 (some key) ct0 s0 =
        oqs_hyb_kem_encaps env (some key) ct0 s0) := by
  constructor
  · rcases hnull with h | h
    · subst h
      simp only [oqs_hyb_kem_encaps, hpb, hdec]
    · subst h
      rcases ct0 with _ | ctb <;> simp only [oqs_hyb_kem_encaps, hpb, hdec]
  · intro env2 e1 e2 e3
    rcases hnull with h | h
    · subst h
      simp only [oqs_hyb_kem_encaps, hpb, hdec, e1, e2, e3]
    · subst h
      rcases ct0 with _ | ctb <;> simp only [oqs_hyb_kem_encaps, hpb, hdec, e1, e2, e3]

theorem c7_sizequery_witness :
    oqs_hyb_kem_encaps toyEnv (some toyKey) none none =
      .ok 1 ⟨none, none, 4, 4⟩ :=
  (c7_sizequery_amended toyEnv toyKey (mkComposite [9, 9] [4, 4]) [9, 9] [4, 4]
    none none rfl (by decide) (Or.inl rfl)).1

/-- C8: the ciphertext splitter (uint16 length parameters) fails exactly
when the declared total differs from len1 + len2 or the buffer is null;
on success it returns the view at offset 0 and the view at offset len1
of the same buffer, which partition it without copying. -/
theorem c8_split_spec (ct : Option Bytes) (ctlen l1 l2 : Nat)
    (h1 : ctlen < 65536) (h2 : l1 < 65536) (h3 : l2 < 65536) :
    (oqsx_get_ct_ptr ct ctlen l1 l2 = none ↔ ctlen ≠ l1 + l2 ∨ ct = none) ∧
    (∀ mem, ct = some mem → ctlen = l1 + l2 →
      oqsx_get_ct_ptr ct ctlen l1 l2 = some (mem, mem.drop l1) ∧
      mem.take l1 ++ mem.drop l1 = mem) := by
  have hm1 : ctlen % 65536 = ctlen := Nat.mod_eq_of_lt h1
  have hm2 : l1 % 65536 = l1 := Nat.mod_eq_of_lt h2
  have hm3 : l2 % 65536 = l2 := Nat.mod_eq_of_lt h3
  constructor
  · by_cases hc : ctlen = l1 + l2
    · rcases ct with _ | mem
      · simp [oqsx_get_ct_ptr, hm1, hm2, hm3, hc]
      · simp only [oqsx_get_ct_ptr, hm1, hm2, hm3, hc]
        rw [if_neg (by omega)]
        simp
    · simp [oqsx_get_ct_ptr, hm1, hm2, hm3, hc]
  · intro mem hmem hc
    subst hmem
    refine ⟨?_, List.take_append_drop l1 mem⟩
    simp only [oqsx_get_ct_ptr, hm1, hm2, hm3, hc]
    rw [if_neg (by omega)]

theorem c8_split_witness :
    oqsx_get_ct_ptr (some [1, 2, 3]) 3 1 2 = some ([1, 2, 3], [2, 3]) :=
  ((c8_split_spec (some [1, 2, 3]) 3 1 2 (by decide) (by decide) (by decide)).2
    [1, 2, 3] rfl rfl).1

/-- C10 (implicit): decapsulation with a null secret output is a pure
length query: for a bound key with a decodable composite private key it
returns success and reports kemSecretLen + kexSecretLen, for every
ciphertext argument and every declared ciphertext length (neither is
inspected), touching nothing else. -/
theorem c10_decaps_sizequery
    (env : HybridEnv) (key : OQSXKey) (pv pkm pkx : Bytes)
    (ct : Option Bytes) (ctlen : Nat)
    (hpv : key.privkey = some pv)
    (hdec : oqsx_get_privkey_ptr pv = some (pkm, pkx)) :
    oqs_hyb_kem_decaps env (some key) none ct ctlen =
      .ok 1 ⟨none, env.kem_length_shared_secret + env.kex_length_secret⟩ := by
  simp only [oqs_hyb_kem_decaps, hpv, hdec]

theorem c10_decaps_sizequery_witness :
    oqs_hyb_kem_decaps toyEnv (some toyKey) none none 999 =
      .ok 1 ⟨none, 4⟩ :=
  c10_decaps_sizequery toyEnv toyKey (mkComposite [9, 9] [1]) [9, 9] [1]
    none 999 rfl (by decide)

/-- C3: a decapsulation compute call (non-null secret buffer) that
returns success must have had both the classical derivation and the KEM
decapsulation succeed on the arguments the code passes them; a failure
of either yields a non-positive return. -/
theorem c3_no_partial_secrets
    (env : HybridEnv) (key : OQSXKey) (sb ctb : Bytes) (ctlen : Nat)
    (r : Int) (out : DecapsOut)
    (h : oqs_hyb_kem_decaps env (some key) (some sb) (some ctb) ctlen = .ok r out)
    (hr : 1 ≤ r) :
    ∃ pv pkm pkx kp ct1 ct2 ssX ssK,
      key.privkey = some pv ∧
      oqsx_get_privkey_ptr pv = some (pkm, pkx) ∧
      env.kex_load_priv env.raw_key_support pkx = some kp ∧
      oqsx_get_ct_ptr (some ctb) ctlen env.kem_length_ciphertext
        env.kex_length_public_key = some (ct1, ct2) ∧
      env.kex_derive kp (ct2.take env.kex_length_public_key) = some ssX ∧
      env.kem_decaps (ct1.take env.kem_length_ciphertext) pkm = some ssK := by
  simp only [oqs_hyb_kem_decaps] at h
  split at h
  · exact absurd h (by simp)
  next pv hpv =>
    split at h
    · exact absurd h (by simp)
    next pkm pkx hdec =>
      split at h
      · exact absurd h (by simp)
      next kp hload =>
        split at h
        · exact absurd h (by simp)
        next ct1 ct2 hsplit =>
          split at h
          · exact absurd h (by simp)
          · split at h
            · injection h with h1 h2
              omega
            next ssX hder =>
              split at h
              · injection h with h1 h2
                omega
              next ssK hkd =>
                exact ⟨pv, pkm, pkx, kp, ct1, ct2, ssX, ssK, hpv, hdec,
                  hload, hsplit, hder, hkd⟩

theorem c3_no_partial_secrets_witness :
    ∃ pv pkm pkx kp ct1 ct2 ssX ssK,
      toyKey.privkey = some pv ∧
      oqsx_get_privkey_ptr pv = some (pkm, pkx) ∧
      toyEnv.kex_load_priv toyEnv.raw_key_support pkx = some kp ∧
      oqsx_get_ct_ptr (some [7, 7, 5, 5]) 4 toyEnv.kem_length_ciphertext
        toyEnv.kex_length_public_key = some (ct1, ct2) ∧
      toyEnv.kex_derive kp (ct2.take toyEnv.kex_length_public_key) = some ssX ∧
      toyEnv.kem_decaps (ct1.take toyEnv.kem_length_ciphertext) pkm = some ssK :=
  c3_no_partial_secrets toyEnv toyKey [0, 0, 0, 0] [7, 7, 5, 5] 4 1
    ⟨some [9, 1, 11, 0], 4⟩ (by decide) (by decide)

/-- C4: in both operations the composite secret is ssKem at offset 0
followed by ssKex at offset kemSecretLen, and the composite ciphertext
is ctKem at offset 0 followed by the key-exchange component at offset
kemCtLen (encapsulation writes it there, decapsulation reads it from
there); moreover the classical derivation runs before the KEM step in
encapsulation: when it fails the result does not depend on the KEM
encapsulation function at all, even though its output is written after
the KEM secret slot. -/
theorem c4_output_layout
    (env : HybridEnv) (key : OQSXKey) (pb km kx : Bytes)
    (eph : KexKeypair) (ctK ssK ssX ctb sb : Bytes)
    (pv pkm pkx kp c1 c2 dK dX sb2 : Bytes)
    (hpb : key.pubkey = some pb)
    (hdec : oqsx_get_pubkey_ptr pb = some (km, kx))
    (hchk : env.kex_check_pub kx = true)
    (hkg : env.kex_keygen = some eph)
    (hder : env.kex_derive eph.priv kx = some ssX)
    (henc : env.kem_encaps km = some (ctK, ssK))
    (hctK : ctK.length = env.kem_length_ciphertext)
    (hssK : ssK.length = env.kem_length_shared_secret)
    (hssX : ssX.length = env.kex_length_secret)
    (hep : eph.pub.length = kx.length)
    (hep0 : 0 < eph.pub.length)
    (hsum : env.kem_length_ciphertext + kx.length < 65536)
    (hctb : ctb.length = env.kem_length_ciphertext + kx.length)
    (hsb : sb.length = env.kem_length_shared_secret + env.kex_length_secret)
    (hpv : key.privkey = some pv)
    (hdec2 : oqsx_get_privkey_ptr pv = some (pkm, pkx))
    (hload : env.kex_load_priv env.raw_key_support pkx = some kp)
    (hc1 : c1.length = env.kem_length_ciphertext)
    (hc2 : c2.length = env.kex_length_public_key)
    (hsum2 : env.kem_length_ciphertext + env.kex_length_public_key < 65536)
    (hchk2 : env.kex_check_pub c2 = true)
    (hderd : env.kex_derive kp c2 = some dX)
    (hkdd : env.kem_decaps c1 pkm = some dK)
    (hdX : dX.length = env.kex_length_secret)
    (hdK : dK.length = env.kem_length_shared_secret)
    (hsb2 : sb2.length = env.kem_length_shared_secret + env.kex_length_secret) :
    oqs_hyb_kem_encaps env (some key) (some ctb) (some sb) =
      .ok 1 ⟨some (ctK ++ eph.pub), some (ssK ++ ssX),
             env.kem_length_ciphertext + kx.length,
             env.kem_length_shared_secret + env.kex_length_secret⟩ ∧
    oqs_hyb_kem_decaps env (some key) (some sb2) (some (c1 ++ c2))
        (env.kem_length_ciphertext + env.kex_length_public_key) =
      .ok 1 ⟨some (dK ++ dX),
             env.kem_length_shared_secret + env.kex_length_secret⟩ ∧
    (∀ (env2 : HybridEnv) (eph2 : KexKeypair)
        (f : Bytes → Option (Bytes × Bytes)) (ct0 s0 : Option Bytes),
      env2.kex_keygen = some eph2 →
      env2.kex_derive eph2.priv kx = none →
      oqs_hyb_kem_encaps { env2 with kem_encaps := f } (some key) ct0 s0 =
        oqs_hyb_kem_encaps env2 (some key) ct0 s0) := by
  refine ⟨?_, ?_, ?_⟩
  · exact encaps_ok env key pb km kx eph ctK ssK ssX ctb sb hpb hdec hchk hkg
      hder henc hctK hssK hssX hep hep0 hsum hctb hsb
  · exact decaps_ok env key pv pkm pkx kp c1 c2 dK dX sb2 hpv hdec2 hload hc1
      hc2 hsum2 hchk2 hderd hkdd hdX hdK hsb2
  · intro env2 eph2 f ct0 s0 hkg2 hder2
    rcases ct0 with _ | ctb0 <;> rcases s0 with _ | sb0 <;>
      simp only [oqs_hyb_kem_encaps, hpb, hdec, hkg2, hder2]

theorem c4_output_layout_witness :
    oqs_hyb_kem_encaps toyEnv (some toyKey) (some [0, 0, 0, 0]) (some [0, 0, 0, 0]) =
      .ok 1 ⟨some [7, 7, 5, 5], some [9, 1, 11, 0], 4, 4⟩ ∧
    oqs_hyb_kem_decaps toyEnv (some toyKey) (some [0, 0, 0, 0]) (some [8, 8, 6, 6]) 4 =
      .ok 1 ⟨some [9, 1, 13, 0], 4⟩ :=
  have h := c4_output_layout toyEnv toyKey (mkComposite [9, 9] [4, 4]) [9, 9] [4, 4]
    ⟨[3], [5, 5]⟩ [7, 7] [9, 1] [11, 0] [0, 0, 0, 0] [0, 0, 0, 0]
    (mkComposite [9, 9] [1]) [9, 9] [1] [1] [8, 8] [6, 6] [9, 1] [13, 0] [0, 0, 0, 0]
    (by decide) (by decide) (by decide) (by decide) (by decide) (by decide)
    (by decide) (by decide) (by decide) (by decide) (by decide) (by decide)
    (by decide) (by decide) (by decide) (by decide) (by decide) (by decide)
    (by decide) (by decide) (by decide) (by decide) (by decide) (by decide)
    (by decide) (by decide)
  ⟨h.1, h.2.1⟩

/-- C9: when the freshly generated ephemeral key-exchange public key
re-encodes to a length different from the kex public length decoded from
the peer's composite key, encapsulation returns failure (-1) and the
key-exchange slice of the output ciphertext (from offset kemCtLen on) is
left unwritten. -/
theorem c9_reencode_length_mismatch
    (env : HybridEnv) (key : OQSXKey) (pb km kx : Bytes)
    (eph : KexKeypair) (ctK ssK ssX ctb sb : Bytes)
    (hpb : key.pubkey = some pb)
    (hdec : oqsx_get_pubkey_ptr pb = some (km, kx))
    (hchk : env.kex_check_pub kx = true)
    (hkg : env.kex_keygen = some eph)
    (hder : env.kex_derive eph.priv kx = some ssX)
    (henc : env.kem_encaps km = some (ctK, ssK))
    (hctK : ctK.length = env.kem_length_ciphertext)
    (hsum : env.kem_length_ciphertext + kx.length < 65536)
    (hbad : eph.pub.length ≠ kx.length) :
    oqs_hyb_kem_encaps env (some key) (some ctb) (some sb) =
      .ok (-1) ⟨some (writeBytes ctb 0 ctK),
                some (writeBytes (writeBytes sb env.kem_length_shared_secret ssX) 0 ssK),
                env.kem_length_ciphertext + kx.length,
                env.kem_length_shared_secret + env.kex_length_secret⟩ ∧
    (writeBytes ctb 0 ctK).drop env.kem_length_ciphertext =
      ctb.drop env.kem_length_ciphertext := by
  have hm1 : env.kem_length_ciphertext % 65536 = env.kem_length_ciphertext :=
    Nat.mod_eq_of_lt (by omega)
  have hm2 : kx.length % 65536 = kx.length := Nat.mod_eq_of_lt (by omega)
  have hm3 : (env.kem_length_ciphertext + kx.length) % 65536 =
      env.kem_length_ciphertext + kx.length := Nat.mod_eq_of_lt (by omega)
  constructor
  · simp only [oqs_hyb_kem_encaps, hpb, hdec, hchk, hkg, hder, henc,
      oqsx_get_ct_ptr, hm1, hm2, hm3, Bool.true_eq_false, if_false, ne_eq,
      Nat.add_right_cancel_iff, not_true_eq_false, not_false_eq_true]
    rw [if_pos (Or.inr hbad)]
  · exact drop_writeBytes_zero ctb ctK env.kem_length_ciphertext hctK

theorem c9_reencode_length_mismatch_witness :
    oqs_hyb_kem_encaps toyEnvBadLen (some toyKey) (some [0, 0, 0, 0]) (some [0, 0, 0, 0]) =
      .ok (-1) ⟨some [7, 7, 0, 0], some [9, 1, 11, 0], 4, 4⟩ ∧
    ([7, 7, 0, 0] : Bytes).drop 2 = ([0, 0, 0, 0] : Bytes).drop 2 :=
  have h := c9_reencode_length_mismatch toyEnvBadLen toyKey
    (mkComposite [9, 9] [4, 4]) [9, 9] [4, 4] ⟨[3], [5, 5, 5]⟩ [7, 7] [9, 1]
    [11, 0] [0, 0, 0, 0] [0, 0, 0, 0]
    rfl (by decide) rfl rfl (by decide) rfl rfl (by decide) (by decide)
  ⟨h.1, h.2⟩

end OqsHybKem
